import Mathlib

/-!
Verification of the zen worktree-orchestrator daemon core.

This file shallowly embeds the parts of the Go sources that the
verified properties talk about:

* `internal/reconciler/keys.go`    — `MakePRKey`, `ParsePRKey`
* `internal/reconciler/setup.go`   — `SetupReconciler.Reconcile`, `ensureWorktree`
* `internal/reconciler/cleanup.go` — `CleanupReconciler.Reconcile`, `removeWorktree`,
  `ScanMergedPRs`
* `internal/worktree/` (discovery, age, lock) — `Classify`, `AgeDays`, `GitMu`
* `internal/prcache` — `Load`, `Save`, `Get`, `Set`
* `cmd` watch command — `watchIsRunning`, `watchStart`, `watchDaemon`, `pollOnce`

Go strings are modelled as lists of characters; machine integers as
`Nat`/`Int` (the parsing model ignores 64-bit overflow, which none of the
verified properties exercise); subprocess and filesystem effects as oracles
plus explicit event traces; fallible operations return `Option`/`Except`.
-/

namespace Zen

/-- Go strings, modelled as lists of characters. -/
abbrev GoStr := List Char

/-! ## Decimal rendering and parsing (Go `fmt %d` / `strconv.Atoi`) -/

/-- The decimal digit character for a value below ten (as produced by Go
`fmt` verbs and `strconv`). Values of ten or more never reach this function
in the embedding. -/
def digitChar (d : Nat) : Char :=
  match d with
  | 0 => '0' | 1 => '1' | 2 => '2' | 3 => '3' | 4 => '4'
  | 5 => '5' | 6 => '6' | 7 => '7' | 8 => '8' | _ => '9'

/-- ASCII decimal digit test (the character class of the regexp token for
digits, and the digit check of `strconv.Atoi`). -/
def isDigit (c : Char) : Bool := 48 ≤ c.toNat && c.toNat ≤ 57

/-- Numeric value of an ASCII digit character. -/
def digitVal (c : Char) : Nat := c.toNat - 48

/-- Fueled decimal rendering; the fuel only drives structural recursion and
is always sufficient at the call site in `natToChars`. -/
def natToCharsCore (fuel : Nat) (n : Nat) : GoStr :=
  match fuel with
  | 0 => []
  | f + 1 =>
    if n < 10 then [digitChar n]
    else natToCharsCore f (n / 10) ++ [digitChar (n % 10)]

/-- Decimal rendering of a natural number, as Go `fmt.Sprintf "%d"` renders
a non-negative integer. -/
def natToChars (n : Nat) : GoStr := natToCharsCore (n + 1) n

/-- Decimal rendering of an integer, as Go `fmt.Sprintf "%d"`. -/
def intToChars (i : Int) : GoStr :=
  if i < 0 then '-' :: natToChars i.natAbs else natToChars i.toNat

/-- Left-to-right accumulation of decimal digit characters into a number. -/
def parseDigits (cs : GoStr) : Nat := cs.foldl (fun a c => a * 10 + digitVal c) 0

/-- Model of Go `strconv.Atoi`: an optional sign followed by at least one
decimal digit; anything else is an error (`none`). The model ignores the
64-bit range check. -/
def goAtoi (cs : GoStr) : Option Int :=
  match cs with
  | [] => none
  | c :: rest =>
    let ds : GoStr := if c == '-' || c == '+' then rest else c :: rest
    if ds.isEmpty then none
    else if ds.all isDigit then
      some (if c == '-' then -(parseDigits ds : Int) else (parseDigits ds : Int))
    else none

theorem digitVal_digitChar (d : Nat) (h : d < 10) : digitVal (digitChar d) = d := by
  interval_cases d <;> rfl

theorem isDigit_digitChar (d : Nat) (h : d < 10) : isDigit (digitChar d) = true := by
  interval_cases d <;> rfl

theorem natToCharsCore_ne_nil (fuel n : Nat) (h : n < fuel) :
    natToCharsCore fuel n ≠ [] := by
  match fuel with
  | 0 => omega
  | f + 1 =>
    unfold natToCharsCore
    split <;> simp

theorem natToChars_ne_nil (n : Nat) : natToChars n ≠ [] :=
  natToCharsCore_ne_nil (n + 1) n (Nat.lt_succ_self n)

theorem mem_natToCharsCore_isDigit (fuel : Nat) :
    ∀ n c, c ∈ natToCharsCore fuel n → isDigit c = true := by
  induction fuel with
  | zero => intro n c hc; simp [natToCharsCore] at hc
  | succ f ih =>
    intro n c hc
    unfold natToCharsCore at hc
    by_cases h : n < 10
    · simp only [if_pos h, List.mem_singleton] at hc
      subst hc; exact isDigit_digitChar n h
    · simp only [if_neg h, List.mem_append, List.mem_singleton] at hc
      rcases hc with hc | hc
      · exact ih _ _ hc
      · subst hc; exact isDigit_digitChar _ (Nat.mod_lt _ (by omega))

theorem mem_natToChars_isDigit (n : Nat) (c : Char) (hc : c ∈ natToChars n) :
    isDigit c = true :=
  mem_natToCharsCore_isDigit (n + 1) n c hc

theorem parseDigits_append_singleton (cs : GoStr) (c : Char) :
    parseDigits (cs ++ [c]) = parseDigits cs * 10 + digitVal c := by
  simp [parseDigits, List.foldl_append]

theorem parseDigits_natToCharsCore (fuel : Nat) :
    ∀ n, n < fuel → parseDigits (natToCharsCore fuel n) = n := by
  induction fuel with
  | zero => intro n h; omega
  | succ f ih =>
    intro n h
    unfold natToCharsCore
    by_cases h10 : n < 10
    · simp [if_pos h10, parseDigits, digitVal_digitChar n h10]
    · have hdiv : n / 10 < f := by
        have h1 : n / 10 < n := Nat.div_lt_self (by omega) (by omega)
        omega
      rw [if_neg h10, parseDigits_append_singleton, ih _ hdiv,
        digitVal_digitChar _ (Nat.mod_lt _ (by omega))]
      omega

theorem parseDigits_natToChars (n : Nat) : parseDigits (natToChars n) = n :=
  parseDigits_natToCharsCore (n + 1) n (Nat.lt_succ_self n)

theorem natToChars_injective {a b : Nat} (h : natToChars a = natToChars b) : a = b := by
  have := parseDigits_natToChars a
  rw [h, parseDigits_natToChars] at this
  omega

theorem goAtoi_natToChars (n : Nat) : goAtoi (natToChars n) = some (n : Int) := by
  rcases hcs : natToChars n with _ | ⟨c, rest⟩
  · exact absurd hcs (natToChars_ne_nil n)
  · have hdig : isDigit c = true := by
      apply mem_natToChars_isDigit n
      rw [hcs]; exact List.mem_cons_self c rest
    have hminus : c ≠ '-' := by
      intro h; rw [h] at hdig; simp [isDigit] at hdig
    have hplus : c ≠ '+' := by
      intro h; rw [h] at hdig; simp [isDigit] at hdig
    have hall : (c :: rest).all isDigit = true := by
      rw [List.all_eq_true]
      intro x hx
      apply mem_natToChars_isDigit n
      rw [hcs]; exact hx
    have hbm : (c == '-') = false := by simp [hminus]
    have hbp : (c == '+') = false := by simp [hplus]
    have hparse : parseDigits (c :: rest) = n := by rw [← hcs, parseDigits_natToChars]
    simp [goAtoi, hbm, hbp, hall, hparse]

/-! ## PR keys (`internal/reconciler/keys.go`) -/

/-- Go `strings.SplitN(key, sep, 2)`: split at the first occurrence of the
separator. `none` models the case where the separator does not occur (Go
then returns a single part). -/
def splitFirst (sep : Char) : GoStr → Option (GoStr × GoStr)
  | [] => none
  | c :: rest =>
    if c = sep then some ([], rest)
    else
      match splitFirst sep rest with
      | none => none
      | some (a, b) => some (c :: a, b)

/-- reconciler.MakePRKey: `fmt.Sprintf("%s:%d", repo, prNumber)`. PR numbers
are non-negative throughout the daemon, so the embedding takes a `Nat`. -/
def MakePRKey (repo : GoStr) (prNumber : Nat) : GoStr :=
  repo ++ ':' :: natToChars prNumber

/-- reconciler.ParsePRKey: split at the first colon, then `strconv.Atoi` on
the second part. -/
def ParsePRKey (key : GoStr) : Except GoStr (GoStr × Int) :=
  match splitFirst ':' key with
  | none => .error (('i' :: []) ++ key)
  | some (r, numPart) =>
    match goAtoi numPart with
    | none => .error (('b' :: []) ++ key)
    | some n => .ok (r, n)

/-- Whether an `Except` value is an error. -/
def exceptIsErr {ε α : Type} (e : Except ε α) : Bool :=
  match e with
  | .error _ => true
  | .ok _ => false

theorem splitFirst_of_not_mem (sep : Char) (key : GoStr) (h : sep ∉ key) :
    splitFirst sep key = none := by
  induction key with
  | nil => rfl
  | cons c rest ih =>
    have hc : c ≠ sep := by
      intro he; exact h (he ▸ List.mem_cons_self c rest)
    have hrest : sep ∉ rest := fun hm => h (List.mem_cons_of_mem c hm)
    simp [splitFirst, if_neg hc, ih hrest]

theorem splitFirst_append (sep : Char) (r ds : GoStr) (h : sep ∉ r) :
    splitFirst sep (r ++ sep :: ds) = some (r, ds) := by
  induction r with
  | nil => simp [splitFirst]
  | cons c rest ih =>
    have hc : c ≠ sep := by
      intro he; exact h (he ▸ List.mem_cons_self c rest)
    have hrest : sep ∉ rest := fun hm => h (List.mem_cons_of_mem c hm)
    simp [splitFirst, if_neg hc, ih hrest]

theorem ParsePRKey_MakePRKey (r : GoStr) (n : Nat) (hr : ':' ∉ r) :
    ParsePRKey (MakePRKey r n) = Except.ok (r, (n : Int)) := by
  simp [ParsePRKey, MakePRKey, splitFirst_append ':' r _ hr, goAtoi_natToChars]

/-- C2 (amended): the round trip `ParsePRKey (MakePRKey r n) = (r, n)` holds
for every repo name r that contains no colon (including the empty name) and
every n ≥ 0; a malformed key — one with no colon at all, or one whose part
after the first colon is not accepted by `strconv.Atoi` — yields an error.
The original claim's quantification over arbitrary non-empty r fails when r
itself contains a colon, because `strings.SplitN(key, ":", 2)` splits at the
first colon of the key. -/
theorem c2_prkey_roundtrip :
    (∀ (r : GoStr) (n : Nat), ':' ∉ r →
        ParsePRKey (MakePRKey r n) = Except.ok (r, (n : Int)))
  ∧ (∀ key : GoStr, ':' ∉ key → exceptIsErr (ParsePRKey key) = true)
  ∧ (∀ (r rest : GoStr), ':' ∉ r → goAtoi rest = none →
        exceptIsErr (ParsePRKey (r ++ ':' :: rest)) = true) := by
  refine ⟨?_, ?_, ?_⟩
  · exact ParsePRKey_MakePRKey
  · intro key hk
    simp [ParsePRKey, splitFirst_of_not_mem ':' key hk, exceptIsErr]
  · intro r rest hr hat
    simp [ParsePRKey, splitFirst_append ':' r rest hr, hat, exceptIsErr]

/-- C2: counterexample to the claim as stated. The repo name "a:b" is a
non-empty string and 0 ≥ 0, yet `ParsePRKey (MakePRKey "a:b" 0)` is an
error (the key "a:b:0" splits at the first colon, and "b:0" is not an
integer), not `(("a:b"), 0)`. -/
theorem c2_counterexample :
    ("a:b".toList ≠ []) ∧
    exceptIsErr (ParsePRKey (MakePRKey ("a:b".toList) 0)) = true := by
  constructor
  · decide
  · decide

/-- C2: witness instantiating the amended round-trip at repo "app", n = 42,
the colon-free key "app42", and the key "app:x7" with a non-numeric part. -/
theorem c2_prkey_roundtrip_witness :
    ParsePRKey (MakePRKey ("app".toList) 42) = Except.ok ("app".toList, (42 : Int))
  ∧ exceptIsErr (ParsePRKey ("app42".toList)) = true
  ∧ exceptIsErr (ParsePRKey (("app".toList) ++ ':' :: ("x7".toList))) = true :=
  ⟨c2_prkey_roundtrip.1 ("app".toList) 42 (by decide),
   c2_prkey_roundtrip.2.1 ("app42".toList) (by decide),
   c2_prkey_roundtrip.2.2 ("app".toList) ("x7".toList) (by decide) (by decide)⟩

/-! ## Worktree classification (`internal/worktree`, `Classify`) -/

/-- The two worktree kinds (`worktree.TypePRReview`, `worktree.TypeFeature`). -/
inductive WorktreeType
  | prReview
  | feature
deriving DecidableEq, Repr

/-- Whether a reversed remainder begins with the reversal of "-pr-". -/
def beginsDashRP (cs : GoStr) : Bool :=
  cs.take 4 == '-' :: 'r' :: 'p' :: '-' :: []

/-- worktree.Classify. The Go source matches the end-anchored regexp
`-pr-(\d+)$` against the directory name and converts the capture group with
`fmt.Sscanf "%d"`. An anchored match exists exactly when the maximal digit
suffix of the name is nonempty and is immediately preceded by the literal
"-pr-" (a shorter digit suffix cannot be preceded by the final '-' of
"-pr-", since '-' is not a digit, so the greedy capture group is exactly
the maximal digit suffix). The embedding computes on the reversed name. -/
def Classify (name : GoStr) : WorktreeType × Nat :=
  if (name.reverse.takeWhile isDigit).isEmpty
      || !(beginsDashRP (name.reverse.dropWhile isDigit)) then
    (.feature, 0)
  else
    (.prReview, parseDigits (name.reverse.takeWhile isDigit).reverse)

theorem beginsDashRP_iff (cs : GoStr) :
    beginsDashRP cs = true ↔ ∃ t, cs = '-' :: 'r' :: 'p' :: '-' :: t := by
  unfold beginsDashRP
  rw [beq_iff_eq]
  constructor
  · intro h
    refine ⟨cs.drop 4, ?_⟩
    conv_lhs => rw [← List.take_append_drop 4 cs]
    rw [h]
    rfl
  · rintro ⟨t, rfl⟩
    rfl

theorem takeWhile_append_all {α : Type} (q : α → Bool) (xs : List α) (y : α) (l : List α)
    (hxs : ∀ x ∈ xs, q x = true) (hy : q y = false) :
    (xs ++ y :: l).takeWhile q = xs := by
  induction xs with
  | nil => simp [List.takeWhile_cons, hy]
  | cons a as ih =>
    have ha : q a = true := hxs a (List.mem_cons_self a as)
    simp [List.takeWhile_cons, ha, ih (fun x hx => hxs x (List.mem_cons_of_mem a hx))]

theorem dropWhile_append_all {α : Type} (q : α → Bool) (xs : List α) (y : α) (l : List α)
    (hxs : ∀ x ∈ xs, q x = true) (hy : q y = false) :
    (xs ++ y :: l).dropWhile q = y :: l := by
  induction xs with
  | nil => simp [List.dropWhile_cons, hy]
  | cons a as ih =>
    have ha : q a = true := hxs a (List.mem_cons_self a as)
    simp [List.dropWhile_cons, ha, ih (fun x hx => hxs x (List.mem_cons_of_mem a hx))]

theorem Classify_append_digits (p ds : GoStr) (hne : ds ≠ [])
    (hds : ∀ c ∈ ds, isDigit c = true) :
    Classify (p ++ '-' :: 'p' :: 'r' :: '-' :: ds) = (.prReview, parseDigits ds) := by
  have hrev : (p ++ '-' :: 'p' :: 'r' :: '-' :: ds).reverse
      = ds.reverse ++ '-' :: 'r' :: 'p' :: '-' :: p.reverse := by
    simp
  have hdsrev : ∀ c ∈ ds.reverse, isDigit c = true := by
    intro c hc
    exact hds c (List.mem_reverse.mp hc)
  have htw : (p ++ '-' :: 'p' :: 'r' :: '-' :: ds).reverse.takeWhile isDigit = ds.reverse := by
    rw [hrev]
    exact takeWhile_append_all isDigit ds.reverse '-' _ hdsrev (by decide)
  have hdw : (p ++ '-' :: 'p' :: 'r' :: '-' :: ds).reverse.dropWhile isDigit
      = '-' :: 'r' :: 'p' :: '-' :: p.reverse := by
    rw [hrev]
    exact dropWhile_append_all isDigit ds.reverse '-' _ hdsrev (by decide)
  have hnem : ds.reverse.isEmpty = false := by
    cases hr : ds.reverse with
    | nil => exact absurd (List.reverse_eq_nil_iff.mp hr) hne
    | cons a t => rfl
  unfold Classify
  rw [htw, hdw, hnem]
  simp [beginsDashRP]

theorem Classify_eq_feature_of_not_form (name : GoStr)
    (h : ¬ ∃ p ds, ds ≠ [] ∧ (∀ c ∈ ds, isDigit c = true) ∧
        name = p ++ '-' :: 'p' :: 'r' :: '-' :: ds) :
    Classify name = (.feature, 0) := by
  by_cases h1 : (name.reverse.takeWhile isDigit).isEmpty
  · unfold Classify
    rw [h1]
    rfl
  · by_cases h2 : beginsDashRP (name.reverse.dropWhile isDigit) = true
    · exfalso
      obtain ⟨t, ht⟩ := (beginsDashRP_iff _).mp h2
      refine h ⟨t.reverse, (name.reverse.takeWhile isDigit).reverse, ?_, ?_, ?_⟩
      · intro hnil
        rw [List.reverse_eq_nil_iff] at hnil
        rw [hnil] at h1
        exact h1 rfl
      · intro c hc
        exact List.mem_takeWhile_imp (List.mem_reverse.mp hc)
      · have hsplit : name.reverse
            = name.reverse.takeWhile isDigit ++ name.reverse.dropWhile isDigit :=
          (List.takeWhile_append_dropWhile isDigit name.reverse).symm
        calc name = name.reverse.reverse := (List.reverse_reverse name).symm
          _ = (name.reverse.takeWhile isDigit ++ ('-' :: 'r' :: 'p' :: '-' :: t)).reverse := by
              rw [← ht, ← hsplit]
          _ = t.reverse ++ '-' :: 'p' :: 'r' :: '-' ::
                (name.reverse.takeWhile isDigit).reverse := by
              simp
    · unfold Classify
      rw [eq_false_of_ne_true h2]
      simp

/-- The classification claim exactly as stated: a name of the canonical
form `repo ++ "-pr-" ++ decimal k` with k positive classifies as a
PR-review with number k, and every other name as a feature with number 0. -/
def ClassifyClaim : Prop :=
  (∀ (p : GoStr) (k : Nat), 0 < k →
      Classify (p ++ '-' :: 'p' :: 'r' :: '-' :: natToChars k) = (.prReview, k))
  ∧ (∀ name : GoStr,
      (¬ ∃ (p : GoStr) (k : Nat), 0 < k ∧
          name = p ++ '-' :: 'p' :: 'r' :: '-' :: natToChars k) →
      Classify name = (.feature, 0))

/-- C5: counterexample to the claim as stated. The directory name
"app-pr-0" is not of the form `repo-pr-k` for any positive k, so the claim
demands `(feature, 0)`; the regexp in the code nevertheless matches the
digit suffix "0" and `Classify` returns `(PR-review, 0)`. -/
theorem c5_counterexample : ¬ ClassifyClaim := by
  rintro ⟨-, h2⟩
  have hform : ¬ ∃ (p : GoStr) (k : Nat), 0 < k ∧
      ("app-pr-0".toList) = p ++ '-' :: 'p' :: 'r' :: '-' :: natToChars k := by
    rintro ⟨p, k, hk, heq⟩
    have ha : Classify ("app-pr-0".toList) = (.prReview, k) := by
      rw [heq, Classify_append_digits p (natToChars k) (natToChars_ne_nil k)
        (mem_natToChars_isDigit k), parseDigits_natToChars]
    have hb : Classify ("app-pr-0".toList) = (.prReview, 0) := by decide
    rw [ha] at hb
    have : k = 0 := (Prod.mk.injEq _ _ _ _ ▸ hb).2
    omega
  have hfeat := h2 ("app-pr-0".toList) hform
  have hb : Classify ("app-pr-0".toList) = (.prReview, 0) := by decide
  rw [hfeat] at hb
  exact absurd hb (by decide)

/-- C5 (amended): for every directory name ending in "-pr-" followed by a
nonempty digit string (the value may be 0 and may carry leading zeros),
`Classify` returns PR-review with the numeric value of that digit string;
for every name not of this form it returns `(feature, 0)`. -/
theorem c5_classify :
    (∀ (p ds : GoStr), ds ≠ [] → (∀ c ∈ ds, isDigit c = true) →
        Classify (p ++ '-' :: 'p' :: 'r' :: '-' :: ds) = (.prReview, parseDigits ds))
  ∧ (∀ name : GoStr,
        (¬ ∃ p ds, ds ≠ [] ∧ (∀ c ∈ ds, isDigit c = true) ∧
            name = p ++ '-' :: 'p' :: 'r' :: '-' :: ds) →
        Classify name = (.feature, 0)) :=
  ⟨Classify_append_digits, Classify_eq_feature_of_not_form⟩

theorem not_pr_form_of_last (name : GoStr) (c : Char) (hlast : name.getLast? = some c)
    (hc : isDigit c = false) :
    ¬ ∃ p ds, ds ≠ [] ∧ (∀ x ∈ ds, isDigit x = true) ∧
        name = p ++ '-' :: 'p' :: 'r' :: '-' :: ds := by
  rintro ⟨p, ds, hne, hdig, rfl⟩
  rw [show (p ++ '-' :: 'p' :: 'r' :: '-' :: ds)
      = (p ++ '-' :: 'p' :: 'r' :: '-' :: []) ++ ds by simp,
    List.getLast?_append_of_ne_nil _ hne] at hlast
  have hmem : c ∈ ds := by
    obtain ⟨hh, rfl⟩ := List.mem_getLast?_eq_getLast hlast
    exact List.getLast_mem hh
  rw [hdig c hmem] at hc
  exact absurd hc (by decide)

/-- C5: witness instantiating the amended classification at the PR-review
name "app-pr-42" and the feature name "app-featurex". -/
theorem c5_classify_witness :
    Classify (("app".toList) ++ '-' :: 'p' :: 'r' :: '-' :: ('4' :: '2' :: [])) = (.prReview, 42)
  ∧ Classify ("app-featurex".toList) = (.feature, 0) :=
  ⟨by rw [c5_classify.1 ("app".toList) ('4' :: '2' :: []) (by decide) (by decide)]; rfl,
   c5_classify.2 ("app-featurex".toList)
     (not_pr_form_of_last _ 'x' (by decide) (by decide))⟩

/-! ## Configuration (`internal/config`) -/

/-- The slice of `config.Config` that the daemon core reads: the author
list, and the per-repo lookups `RepoBasePath` (empty string when the short
name is not configured) and `RepoFullName`. The Go map lookups are
abstracted as functions. -/
structure Config where
  authors : List GoStr
  basePathOf : GoStr → GoStr
  fullNameOf : GoStr → GoStr

/-- config.IsAuthor: a linear scan comparing logins for string equality. -/
def IsAuthor (c : Config) (login : GoStr) : Bool :=
  c.authors.any (fun a => a == login)

theorem isAuthor_iff (c : Config) (login : GoStr) :
    IsAuthor c login = true ↔ login ∈ c.authors := by
  unfold IsAuthor
  rw [List.any_eq_true]
  constructor
  · rintro ⟨a, ha, he⟩
    rw [beq_iff_eq] at he
    exact he ▸ ha
  · intro h
    exact ⟨login, h, beq_self_eq_true login⟩

/-! ## The poller (`cmd`, `pollOnce`) -/

/-- The fields of `github.ReviewRequest` that the poller reads: PR number,
title, author login (`Author.Login`) and repository short name
(`Repository.Name`). -/
structure ReviewRequest where
  number : Nat
  title : GoStr
  authorLogin : GoStr
  repoName : GoStr
deriving DecidableEq, Repr

/-- Accumulated observable effects of the poll loop: the seen set being
threaded through, the PR numbers for which the new-review notification
(`notify.PRReview`) fired, the `StorePRData` calls, and the setup-queue
enqueues with their priority. -/
structure PollAcc where
  seenAfter : List GoStr
  notified : List Nat
  stored : List (GoStr × ReviewRequest)
  enqueued : List (GoStr × Nat)
deriving DecidableEq, Repr

/-- The loop body of cmd.pollOnce: for each review request, skip it when its
number (rendered in decimal) is already in the seen set; otherwise notify,
and — when the author is configured — store the payload under the PR key
and enqueue that key with priority 1; in both cases mark the number seen.
The Go seen set is a map used as a set; the embedding appends the new key
to a list. -/
def pollLoop (c : Config) : List ReviewRequest → List GoStr → PollAcc
  | [], seen => ⟨seen, [], [], []⟩
  | pr :: rest, seen =>
    if natToChars pr.number ∈ seen then pollLoop c rest seen
    else
      let out := pollLoop c rest (seen ++ [natToChars pr.number])
      ⟨out.seenAfter, pr.number :: out.notified,
        (if IsAuthor c pr.authorLogin then [(MakePRKey pr.repoName pr.number, pr)] else [])
          ++ out.stored,
        (if IsAuthor c pr.authorLogin then [(MakePRKey pr.repoName pr.number, 1)] else [])
          ++ out.enqueued⟩

/-- The observable effects of one cmd.pollOnce pass after a successful
`GetReviewRequests` call, including the checkpoint record (`saveState`:
seen list plus observed count) written once after the loop. -/
structure PollEffects where
  notified : List Nat
  stored : List (GoStr × ReviewRequest)
  enqueued : List (GoStr × Nat)
  seenAfter : List GoStr
  checkpoint : Option (List GoStr × Nat)
deriving DecidableEq, Repr

/-- cmd.pollOnce (fetch already succeeded; on a fetch error the function
returns before the loop and writes no checkpoint). -/
def pollOnce (c : Config) (seen : List GoStr) (reviews : List ReviewRequest) : PollEffects :=
  let out := pollLoop c reviews seen
  ⟨out.notified, out.stored, out.enqueued, out.seenAfter,
    some (out.seenAfter, reviews.length)⟩

theorem pollLoop_seen_mono (c : Config) (rs : List ReviewRequest) :
    ∀ seen, ∀ x ∈ seen, x ∈ (pollLoop c rs seen).seenAfter := by
  induction rs with
  | nil => intro seen x hx; exact hx
  | cons q rest ih =>
    intro seen x hx
    by_cases hq : natToChars q.number ∈ seen
    · rw [pollLoop, if_pos hq]
      exact ih seen x hx
    · rw [pollLoop, if_neg hq]
      exact ih _ x (List.mem_append_left _ hx)

theorem pollLoop_stored_sound (c : Config) (rs : List ReviewRequest) :
    ∀ seen k q, (k, q) ∈ (pollLoop c rs seen).stored →
      q ∈ rs ∧ IsAuthor c q.authorLogin = true ∧ k = MakePRKey q.repoName q.number := by
  induction rs with
  | nil => intro seen k q hq; simp [pollLoop] at hq
  | cons r rest ih =>
    intro seen k q hq
    by_cases hr : natToChars r.number ∈ seen
    · rw [pollLoop, if_pos hr] at hq
      obtain ⟨h1, h2, h3⟩ := ih seen k q hq
      exact ⟨List.mem_cons_of_mem r h1, h2, h3⟩
    · rw [pollLoop, if_neg hr] at hq
      simp only [List.mem_append] at hq
      rcases hq with hq | hq
      · by_cases ha : IsAuthor c r.authorLogin
        · rw [if_pos ha, List.mem_singleton] at hq
          obtain ⟨hk, hqr⟩ := Prod.mk.injEq _ _ _ _ ▸ hq
          subst hqr
          exact ⟨List.mem_cons_self _ _, ha, hk⟩
        · rw [if_neg ha] at hq
          simp at hq
      · obtain ⟨h1, h2, h3⟩ := ih _ k q hq
        exact ⟨List.mem_cons_of_mem r h1, h2, h3⟩

theorem pollLoop_enqueued_sound (c : Config) (rs : List ReviewRequest) :
    ∀ seen k p, (k, p) ∈ (pollLoop c rs seen).enqueued →
      ∃ q, q ∈ rs ∧ IsAuthor c q.authorLogin = true
        ∧ k = MakePRKey q.repoName q.number ∧ p = 1 := by
  induction rs with
  | nil => intro seen k p hq; simp [pollLoop] at hq
  | cons r rest ih =>
    intro seen k p hq
    by_cases hr : natToChars r.number ∈ seen
    · rw [pollLoop, if_pos hr] at hq
      obtain ⟨q, h1, h2, h3, h4⟩ := ih seen k p hq
      exact ⟨q, List.mem_cons_of_mem r h1, h2, h3, h4⟩
    · rw [pollLoop, if_neg hr] at hq
      simp only [List.mem_append] at hq
      rcases hq with hq | hq
      · by_cases ha : IsAuthor c r.authorLogin
        · rw [if_pos ha, List.mem_singleton] at hq
          obtain ⟨hk, hp⟩ := Prod.mk.injEq _ _ _ _ ▸ hq
          exact ⟨r, List.mem_cons_self _ _, ha, hk, hp⟩
        · rw [if_neg ha] at hq
          simp at hq
      · obtain ⟨q, h1, h2, h3, h4⟩ := ih _ k p hq
        exact ⟨q, List.mem_cons_of_mem r h1, h2, h3, h4⟩

theorem digits_sep_inj {sep : Char} (hsep : isDigit sep = false) :
    ∀ (xs ys u v : GoStr), (∀ c ∈ xs, isDigit c = true) → (∀ c ∈ ys, isDigit c = true) →
      xs ++ sep :: u = ys ++ sep :: v → xs = ys ∧ u = v := by
  intro xs
  induction xs with
  | nil =>
    intro ys u v _ hy h
    cases ys with
    | nil => simpa using h
    | cons b ys2 =>
      simp only [List.nil_append, List.cons_append, List.cons.injEq] at h
      have hb := hy b (List.mem_cons_self b ys2)
      rw [← h.1] at hb
      rw [hsep] at hb
      exact absurd hb (by decide)
  | cons a xs2 ih =>
    intro ys u v hx hy h
    cases ys with
    | nil =>
      simp only [List.cons_append, List.nil_append, List.cons.injEq] at h
      have ha := hx a (List.mem_cons_self a xs2)
      rw [h.1, hsep] at ha
      exact absurd ha (by decide)
    | cons b ys2 =>
      simp only [List.cons_append, List.cons.injEq] at h
      obtain ⟨hxy, huv⟩ := ih ys2 u v
        (fun x hx2 => hx x (List.mem_cons_of_mem a hx2))
        (fun x hx2 => hy x (List.mem_cons_of_mem b hx2)) h.2
      exact ⟨by rw [h.1, hxy], huv⟩

theorem MakePRKey_inj {r1 r2 : GoStr} {n1 n2 : Nat}
    (h : MakePRKey r1 n1 = MakePRKey r2 n2) : r1 = r2 ∧ n1 = n2 := by
  have hrev := congrArg List.reverse h
  simp only [MakePRKey] at hrev
  rw [show (r1 ++ ':' :: natToChars n1).reverse
      = (natToChars n1).reverse ++ ':' :: r1.reverse by simp,
    show (r2 ++ ':' :: natToChars n2).reverse
      = (natToChars n2).reverse ++ ':' :: r2.reverse by simp] at hrev
  obtain ⟨hd, hr⟩ := digits_sep_inj (by decide) _ _ _ _
    (fun x hx => mem_natToChars_isDigit n1 x (List.mem_reverse.mp hx))
    (fun x hx => mem_natToChars_isDigit n2 x (List.mem_reverse.mp hx)) hrev
  constructor
  · rw [← List.reverse_reverse r1, hr, List.reverse_reverse]
  · exact natToChars_injective
      (by rw [← List.reverse_reverse (natToChars n1), hd, List.reverse_reverse])

theorem pollLoop_complete (c : Config) (rs : List ReviewRequest) :
    ∀ seen (pr : ReviewRequest), pr ∈ rs →
      (rs.map ReviewRequest.number).Nodup →
      natToChars pr.number ∉ seen →
      pr.number ∈ (pollLoop c rs seen).notified
      ∧ natToChars pr.number ∈ (pollLoop c rs seen).seenAfter
      ∧ (IsAuthor c pr.authorLogin = true →
          (MakePRKey pr.repoName pr.number, pr) ∈ (pollLoop c rs seen).stored
          ∧ (MakePRKey pr.repoName pr.number, 1) ∈ (pollLoop c rs seen).enqueued) := by
  induction rs with
  | nil => intro seen pr hpr; exact absurd hpr (List.not_mem_nil pr)
  | cons q rest ih =>
    intro seen pr hpr hnodup hunseen
    have hnodup2 : (rest.map ReviewRequest.number).Nodup :=
      (List.nodup_cons.mp hnodup).2
    rcases List.mem_cons.mp hpr with hpq | hprest
    · subst hpq
      rw [pollLoop, if_neg hunseen]
      refine ⟨List.mem_cons_self _ _, ?_, ?_⟩
      · exact pollLoop_seen_mono c rest _ _
          (List.mem_append_right _ (List.mem_singleton.mpr rfl))
      · intro ha
        constructor
        · exact List.mem_append_left _ (by rw [if_pos ha]; exact List.mem_singleton.mpr rfl)
        · exact List.mem_append_left _ (by rw [if_pos ha]; exact List.mem_singleton.mpr rfl)
    · have hnum : q.number ≠ pr.number := by
        intro he
        have : q.number ∈ rest.map ReviewRequest.number :=
          he ▸ List.mem_map_of_mem ReviewRequest.number hprest
        exact (List.nodup_cons.mp hnodup).1 this
      by_cases hq : natToChars q.number ∈ seen
      · rw [pollLoop, if_pos hq]
        exact ih seen pr hprest hnodup2 hunseen
      · rw [pollLoop, if_neg hq]
        have hunseen2 : natToChars pr.number ∉ seen ++ [natToChars q.number] := by
          intro hmem
          rcases List.mem_append.mp hmem with hmem | hmem
          · exact hunseen hmem
          · exact hnum (natToChars_injective (List.mem_singleton.mp hmem)).symm
        obtain ⟨h1, h2, h3⟩ := ih _ pr hprest hnodup2 hunseen2
        exact ⟨List.mem_cons_of_mem _ h1, h2,
          fun ha => ⟨List.mem_append_right _ (h3 ha).1, List.mem_append_right _ (h3 ha).2⟩⟩

/-- C4: on each poll, every returned PR whose number is not in the seen set
gets a new-review notification; its payload is stored and its key enqueued
with priority 1 exactly when its author is configured; its number joins the
seen set regardless of the author match; and the checkpoint record with the
final seen set and the observed count is written after the loop. (Stated
for polls whose PR numbers are distinct, as delivered by the de-duplicating
`GetReviewRequests`.) -/
theorem c4_poll_once (c : Config) (seen : List GoStr) (reviews : List ReviewRequest)
    (hnodup : (reviews.map ReviewRequest.number).Nodup)
    (pr : ReviewRequest) (hpr : pr ∈ reviews)
    (hunseen : natToChars pr.number ∉ seen) :
    pr.number ∈ (pollOnce c seen reviews).notified
    ∧ ((MakePRKey pr.repoName pr.number, pr) ∈ (pollOnce c seen reviews).stored
        ↔ pr.authorLogin ∈ c.authors)
    ∧ ((MakePRKey pr.repoName pr.number, 1) ∈ (pollOnce c seen reviews).enqueued
        ↔ pr.authorLogin ∈ c.authors)
    ∧ natToChars pr.number ∈ (pollOnce c seen reviews).seenAfter
    ∧ (pollOnce c seen reviews).checkpoint
        = some ((pollOnce c seen reviews).seenAfter, reviews.length) := by
  obtain ⟨h1, h2, h3⟩ := pollLoop_complete c reviews seen pr hpr hnodup hunseen
  have hinj := List.inj_on_of_nodup_map hnodup
  refine ⟨h1, ⟨?_, ?_⟩, ⟨?_, ?_⟩, h2, rfl⟩
  · intro hmem
    obtain ⟨hq1, hq2, _⟩ := pollLoop_stored_sound c reviews seen _ pr hmem
    exact (isAuthor_iff c pr.authorLogin).mp hq2
  · intro ha
    exact (h3 ((isAuthor_iff c pr.authorLogin).mpr ha)).1
  · intro hmem
    obtain ⟨q, hq1, hq2, hq3, -⟩ := pollLoop_enqueued_sound c reviews seen _ 1 hmem
    obtain ⟨-, hn⟩ := MakePRKey_inj hq3.symm
    have hqp : q = pr := hinj hq1 hpr hn
    rw [← hqp]
    exact (isAuthor_iff c q.authorLogin).mp hq2
  · intro ha
    exact (h3 ((isAuthor_iff c pr.authorLogin).mpr ha)).2

/-- A concrete configuration for the poll witness: author list
containing alice, every repo mapped to the same base path. -/
def pollCfgW : Config :=
  ⟨[("alice".toList)], fun _ => ("/tmp/acme".toList), fun r => r⟩

/-- The review request of end-to-end scenario 1 of the specification. -/
def prW : ReviewRequest :=
  ⟨42, ("Add pagination".toList), ("alice".toList), ("app".toList)⟩

/-- C4: witness instantiating the poll property at scenario 1 — empty seen
set, one review request by a configured author. -/
theorem c4_poll_once_witness :
    42 ∈ (pollOnce pollCfgW [] [prW]).notified
    ∧ (MakePRKey ("app".toList) 42, prW) ∈ (pollOnce pollCfgW [] [prW]).stored
    ∧ (MakePRKey ("app".toList) 42, 1) ∈ (pollOnce pollCfgW [] [prW]).enqueued
    ∧ natToChars 42 ∈ (pollOnce pollCfgW [] [prW]).seenAfter
    ∧ (pollOnce pollCfgW [] [prW]).checkpoint
        = some ((pollOnce pollCfgW [] [prW]).seenAfter, 1) := by
  have h := c4_poll_once pollCfgW [] [prW] (by decide) prW
    (List.mem_singleton.mpr rfl) (by simp)
  exact ⟨h.1, h.2.1.mpr (by decide), h.2.2.1.mpr (by decide), h.2.2.2.1, h.2.2.2.2⟩

/-! ## Reconcilers (`internal/reconciler/setup.go`, `cleanup.go`) -/

/-- Git subprocess invocations made by the reconcilers. -/
inductive GitCmd
  | fetch (refspec : GoStr)
  | worktreeAdd (path : GoStr) (branch : GoStr)
  | worktreeRemove (path : GoStr)
deriving DecidableEq, Repr

/-- One subprocess invocation: the command, the origin-clone working
directory it runs in, and whether the process-wide Version-Control Mutex
`worktree.GitMu` is held lexically around the invocation in the source
(`GitMu.Lock()` before it, released by the deferred unlock). -/
structure SubprocCall where
  cmd : GitCmd
  dir : GoStr
  underGitMu : Bool
deriving DecidableEq, Repr

/-- A reconcile outcome as the workqueue classifies it: `nil` (success), a
`workqueue.NonRetriableError` (terminal), or a plain wrapped error
(retriable). -/
inductive RecResult
  | ok
  | terminal (msg : GoStr)
  | retriable (msg : GoStr)
deriving DecidableEq, Repr

def RecResult.isOk : RecResult → Bool
  | .ok => true
  | _ => false

def RecResult.isTerminal : RecResult → Bool
  | .terminal _ => true
  | _ => false

def RecResult.isRetriable : RecResult → Bool
  | .retriable _ => true
  | _ => false

/-- filepath.Join for the two-component joins used by the reconcilers. -/
def pathJoin (base name : GoStr) : GoStr := base ++ '/' :: name

/-- The worktree directory name `<repo>-pr-<n>` (`fmt.Sprintf "%s-pr-%d"`). -/
def worktreeNameOf (repo : GoStr) (n : Int) : GoStr :=
  repo ++ '-' :: 'p' :: 'r' :: '-' :: intToChars n

/-- The refspec `+pull/<n>/head:pr-<n>` fetched by ensureWorktree. -/
def fetchRefSpec (n : Int) : GoStr :=
  ("+pull/".toList) ++ intToChars n ++ (("/head:pr-").toList) ++ intToChars n

/-- The local branch name `pr-<n>`. -/
def prBranchOf (n : Int) : GoStr := ("pr-".toList) ++ intToChars n

/-- Oracles for the environment one `SetupReconciler.Reconcile` call runs
against: the buffered PR payloads, the two stat calls on the worktree path
(before and after taking `GitMu` — the filesystem may change in between; a
`true` result models `err == nil`), the presence of `CLAUDE.local.md`, and
the outcomes of the two subprocesses, of the context injection and of the
user notification. -/
structure SetupEnv where
  cfg : Config
  prData : GoStr → Option ReviewRequest
  statBeforeLock : GoStr → Bool
  statUnderLock : GoStr → Bool
  fetchOk : Bool
  addOk : Bool
  claudeLocalPresent : Bool
  injectOk : Bool
  notifyOk : Bool

/-- reconciler.SetupReconciler.ensureWorktree: skip when the worktree path
exists; otherwise take `worktree.GitMu`, re-check, fetch the PR head into
the local branch `pr-<n>`, and add the worktree at the path. Both
subprocesses run with the mutex held (`underGitMu = true` in the trace).
The trailing best-effort deletion of the administrative `index.lock` has no
observable effect in this model. Any subprocess failure is returned as a
plain (retriable) error. -/
def ensureWorktree (env : SetupEnv) (originPath worktreePath : GoStr) (n : Int) :
    Option GoStr × List SubprocCall :=
  if env.statBeforeLock worktreePath then (none, [])
  else if env.statUnderLock worktreePath then (none, [])
  else
    let fetchCall : SubprocCall := ⟨.fetch (fetchRefSpec n), originPath, true⟩
    if !env.fetchOk then (some (("git fetch").toList), [fetchCall])
    else
      let addCall : SubprocCall := ⟨.worktreeAdd worktreePath (prBranchOf n), originPath, true⟩
      if !env.addOk then (some (("git worktree add").toList), [fetchCall, addCall])
      else (none, [fetchCall, addCall])

/-- Observable outcome of one setup reconciliation: the returned error
classification, the subprocess trace, the display-cache writes
(`prcache.Set` arguments), whether the worktree-ready notification was
attempted, and how many non-blocking failures were merely logged. -/
structure SetupOutcome where
  result : RecResult
  calls : List SubprocCall
  cacheWrites : List (GoStr × Int × GoStr × GoStr)
  notifyAttempted : Bool
  loggedWarnings : Nat

/-- reconciler.SetupReconciler.Reconcile: parse the key (terminal on
failure), resolve the base path (terminal when empty), look up the buffered
payload (terminal when absent); then step 1 (ensureWorktree — any failure
retriable), step 2 (context injection — skipped when `CLAUDE.local.md`
exists, failure logged only), step 3 (display-cache write), and the
worktree-ready notification (failure logged only). -/
def SetupReconcile (env : SetupEnv) (key : GoStr) : SetupOutcome :=
  match ParsePRKey key with
  | .error e => ⟨.terminal e, [], [], false, 0⟩
  | .ok (repo, n) =>
    let basePath := env.cfg.basePathOf repo
    if basePath = [] then ⟨.terminal (("unknown repo").toList), [], [], false, 0⟩
    else
      match env.prData key with
      | none => ⟨.terminal (("no PR data").toList), [], [], false, 0⟩
      | some pr =>
        let worktreePath := pathJoin basePath (worktreeNameOf repo n)
        let originPath := pathJoin basePath repo
        match ensureWorktree env originPath worktreePath n with
        | (some e, calls) => ⟨.retriable (("ensureWorktree: ").toList ++ e), calls, [], false, 0⟩
        | (none, calls) =>
          let injWarn : Nat :=
            if env.claudeLocalPresent then 0 else if env.injectOk then 0 else 1
          let notifyWarn : Nat := if env.notifyOk then 0 else 1
          ⟨.ok, calls, [(repo, n, pr.title, pr.authorLogin)], true, injWarn + notifyWarn⟩

theorem ok_pair_inj {r0 r : GoStr} {n0 n : Int}
    (h : (Except.ok (r0, n0) : Except GoStr (GoStr × Int)) = Except.ok (r, n)) :
    r0 = r ∧ n0 = n := by
  have hp := Except.ok.inj h
  exact ⟨congrArg Prod.fst hp, congrArg Prod.snd hp⟩

theorem ensureWorktree_fail_iff (env : SetupEnv) (originPath worktreePath : GoStr) (n : Int) :
    (ensureWorktree env originPath worktreePath n).1.isSome = true ↔
      (env.statBeforeLock worktreePath = false ∧ env.statUnderLock worktreePath = false
        ∧ (env.fetchOk = false ∨ env.addOk = false)) := by
  unfold ensureWorktree
  by_cases h1 : env.statBeforeLock worktreePath = true
  · simp [h1]
  · rw [Bool.not_eq_true] at h1
    by_cases h2 : env.statUnderLock worktreePath = true
    · simp [h1, h2]
    · rw [Bool.not_eq_true] at h2
      by_cases h3 : env.fetchOk = true
      · by_cases h4 : env.addOk = true
        · simp [h1, h2, h3, h4]
        · rw [Bool.not_eq_true] at h4
          simp [h1, h2, h3, h4]
      · rw [Bool.not_eq_true] at h3
        simp [h1, h2, h3]

/-- C3: a setup reconciliation returns a terminal error exactly on a
malformed key, an unconfigured repo short name, or a missing buffered
payload; and a retriable error exactly when those checks pass and step 1
fails — which happens exactly when the worktree path is absent at both
stats and the fetch or the worktree-add subprocess fails. -/
theorem c3_setup_errors (env : SetupEnv) (key : GoStr) :
    ((SetupReconcile env key).result.isTerminal = true ↔
      (exceptIsErr (ParsePRKey key) = true
        ∨ ∃ r n, ParsePRKey key = .ok (r, n)
            ∧ (env.cfg.basePathOf r = []
              ∨ (env.cfg.basePathOf r ≠ [] ∧ env.prData key = none))))
  ∧ ((SetupReconcile env key).result.isRetriable = true ↔
      (∃ r n, ParsePRKey key = .ok (r, n)
        ∧ env.cfg.basePathOf r ≠ []
        ∧ (env.prData key).isSome = true
        ∧ env.statBeforeLock (pathJoin (env.cfg.basePathOf r) (worktreeNameOf r n)) = false
        ∧ env.statUnderLock (pathJoin (env.cfg.basePathOf r) (worktreeNameOf r n)) = false
        ∧ (env.fetchOk = false ∨ env.addOk = false))) := by
  rcases hparse : ParsePRKey key with e | ⟨r0, n0⟩
  · have hres : SetupReconcile env key = ⟨.terminal e, [], [], false, 0⟩ := by
      unfold SetupReconcile
      rw [hparse]
    rw [hres]
    constructor
    · exact iff_of_true rfl (Or.inl (by simp [exceptIsErr, hparse]))
    · refine iff_of_false (by simp [RecResult.isRetriable]) ?_
      rintro ⟨r, n, hok, -⟩
      exact absurd hok (by simp)
  · by_cases hbase : env.cfg.basePathOf r0 = []
    · have hres : SetupReconcile env key
          = ⟨.terminal (("unknown repo").toList), [], [], false, 0⟩ := by
        unfold SetupReconcile
        rw [hparse]
        simp [hbase]
      rw [hres]
      constructor
      · exact iff_of_true rfl (Or.inr ⟨r0, n0, rfl, Or.inl hbase⟩)
      · refine iff_of_false (by simp [RecResult.isRetriable]) ?_
        rintro ⟨r, n, hok, hb, -⟩
        obtain ⟨h1, -⟩ := ok_pair_inj hok
        exact hb (h1 ▸ hbase)
    · rcases hdata : env.prData key with _ | pr
      · have hres : SetupReconcile env key
            = ⟨.terminal (("no PR data").toList), [], [], false, 0⟩ := by
          unfold SetupReconcile
          rw [hparse]
          simp [hbase, hdata]
        rw [hres]
        constructor
        · exact iff_of_true rfl (Or.inr ⟨r0, n0, rfl, Or.inr ⟨hbase, rfl⟩⟩)
        · refine iff_of_false (by simp [RecResult.isRetriable]) ?_
          rintro ⟨r, n, hok, -, hsome, -⟩
          exact absurd hsome (by simp)
      · rcases hens : ensureWorktree env (pathJoin (env.cfg.basePathOf r0) r0)
            (pathJoin (env.cfg.basePathOf r0) (worktreeNameOf r0 n0)) n0 with ⟨oe, calls⟩
        cases oe with
        | some e =>
          have hres : SetupReconcile env key
              = ⟨.retriable ((("ensureWorktree: ").toList) ++ e), calls, [], false, 0⟩ := by
            unfold SetupReconcile
            rw [hparse]
            simp [hbase, hdata, hens]
          rw [hres]
          have hfail := (ensureWorktree_fail_iff env (pathJoin (env.cfg.basePathOf r0) r0)
            (pathJoin (env.cfg.basePathOf r0) (worktreeNameOf r0 n0)) n0)
          rw [hens] at hfail
          obtain ⟨hs1, hs2, hor⟩ := hfail.mp (by simp)
          constructor
          · refine iff_of_false (by simp [RecResult.isTerminal]) ?_
            rintro (herr | ⟨r, n, hok, hrest⟩)
            · simp [exceptIsErr] at herr
            · obtain ⟨h1, -⟩ := ok_pair_inj hok
              subst h1
              rcases hrest with hb | ⟨-, hd⟩
              · exact hbase hb
              · exact absurd hd (by simp)
          · refine iff_of_true rfl ?_
            exact ⟨r0, n0, rfl, hbase, by simp, hs1, hs2, hor⟩
        | none =>
          have hres : SetupReconcile env key
              = ⟨.ok, calls, [(r0, n0, pr.title, pr.authorLogin)], true,
                  (if env.claudeLocalPresent then 0 else if env.injectOk then 0 else 1)
                    + (if env.notifyOk then 0 else 1)⟩ := by
            unfold SetupReconcile
            rw [hparse]
            simp [hbase, hdata, hens]
          rw [hres]
          have hfail := (ensureWorktree_fail_iff env (pathJoin (env.cfg.basePathOf r0) r0)
            (pathJoin (env.cfg.basePathOf r0) (worktreeNameOf r0 n0)) n0)
          rw [hens] at hfail
          constructor
          · refine iff_of_false (by simp [RecResult.isTerminal]) ?_
            rintro (herr | ⟨r, n, hok, hrest⟩)
            · simp [exceptIsErr] at herr
            · obtain ⟨h1, -⟩ := ok_pair_inj hok
              subst h1
              rcases hrest with hb | ⟨-, hd⟩
              · exact hbase hb
              · exact absurd hd (by simp)
          · refine iff_of_false (by simp [RecResult.isRetriable]) ?_
            rintro ⟨r, n, hok, -, -, hs1, hs2, hor⟩
            obtain ⟨h1, h2⟩ := ok_pair_inj hok
            subst h1
            subst h2
            have : (none : Option GoStr).isSome = true := hfail.mpr ⟨hs1, hs2, hor⟩
            simp at this
/-- C7: whenever step 1 succeeds (including when it merely finds the
worktree already present), setup reconciliation reports success, attempts
the worktree-ready notification, and writes the display-cache entry — for
every outcome of the context injection and of the notification, whose
failures never reach the result. -/
theorem c7_setup_nonblocking (env : SetupEnv) (key r : GoStr) (n : Int) (pr : ReviewRequest)
    (hparse : ParsePRKey key = .ok (r, n))
    (hbase : env.cfg.basePathOf r ≠ [])
    (hdata : env.prData key = some pr)
    (hstep1 : (ensureWorktree env (pathJoin (env.cfg.basePathOf r) r)
        (pathJoin (env.cfg.basePathOf r) (worktreeNameOf r n)) n).1 = none) :
    (SetupReconcile env key).result = .ok
    ∧ (SetupReconcile env key).cacheWrites = [(r, n, pr.title, pr.authorLogin)]
    ∧ (SetupReconcile env key).notifyAttempted = true := by
  rcases hens : ensureWorktree env (pathJoin (env.cfg.basePathOf r) r)
      (pathJoin (env.cfg.basePathOf r) (worktreeNameOf r n)) n with ⟨oe, calls⟩
  rw [hens] at hstep1
  simp only at hstep1
  subst hstep1
  simp [SetupReconcile, hparse, hbase, hdata, hens]

/-- A concrete environment for the C7 witness: payload buffered, the
worktree already on disk, and both the context injection and the
notification failing. -/
def setupEnvW : SetupEnv :=
  ⟨⟨[], fun _ => ("/tmp/acme".toList), fun r => r⟩,
   fun _ => some prW, fun _ => true, fun _ => true,
   true, true, false, false, false⟩

/-- C7: witness — with the worktree present and both non-blocking steps
failing, reconciling "app:42" still succeeds, caches the metadata, and
attempts the notification. -/
theorem c7_setup_nonblocking_witness :
    (SetupReconcile setupEnvW (MakePRKey ("app".toList) 42)).result = .ok
    ∧ (SetupReconcile setupEnvW (MakePRKey ("app".toList) 42)).cacheWrites
        = [(("app".toList), (42 : Int), prW.title, prW.authorLogin)]
    ∧ (SetupReconcile setupEnvW (MakePRKey ("app".toList) 42)).notifyAttempted = true :=
  c7_setup_nonblocking setupEnvW (MakePRKey ("app".toList) 42) ("app".toList) 42 prW
    (ParsePRKey_MakePRKey ("app".toList) 42 (by decide))
    (by decide) rfl rfl

/-- Oracles for the environment one `CleanupReconciler.Reconcile` call runs
against: the stat of the worktree path (`true` models a successful stat,
i.e. not `os.IsNotExist`) and the outcome of the remove subprocess. -/
structure CleanupEnv where
  cfg : Config
  pathExists : GoStr → Bool
  removeOk : Bool

/-- reconciler.removeWorktree (cleanup.go): return nil at once when the
worktree path does not exist; otherwise run `git worktree remove <path>
--force` from the origin clone. The Go function acquires no lock, so the
subprocess trace records `underGitMu = false`. -/
def removeWorktree (env : CleanupEnv) (originPath worktreePath : GoStr) :
    Option GoStr × List SubprocCall :=
  if !env.pathExists worktreePath then (none, [])
  else
    let call : SubprocCall := ⟨.worktreeRemove worktreePath, originPath, false⟩
    if env.removeOk then (none, [call])
    else (some (("git worktree remove").toList), [call])

/-- Observable outcome of one cleanup reconciliation. -/
structure CleanupOutcome where
  result : RecResult
  calls : List SubprocCall
deriving DecidableEq, Repr

/-- reconciler.CleanupReconciler.Reconcile: parse the key (terminal on
failure), resolve the base path (terminal when empty), then remove the
worktree; a remove failure is wrapped as a plain (retriable) error. -/
def CleanupReconcile (env : CleanupEnv) (key : GoStr) : CleanupOutcome :=
  match ParsePRKey key with
  | .error e => ⟨.terminal e, []⟩
  | .ok (repo, n) =>
    let basePath := env.cfg.basePathOf repo
    if basePath = [] then ⟨.terminal (("unknown repo").toList), []⟩
    else
      let worktreePath := pathJoin basePath (worktreeNameOf repo n)
      let originPath := pathJoin basePath repo
      match removeWorktree env originPath worktreePath with
      | (some e, calls) => ⟨.retriable ((("removeWorktree: ").toList) ++ e), calls⟩
      | (none, calls) => ⟨.ok, calls⟩

/-- C8: for every key that parses to a configured repo, when the computed
worktree path does not exist on disk the cleanup reconciliation returns
success and invokes no subprocess; re-running cleanup after a removal is
therefore a success no-op. -/
theorem c8_cleanup_noop (env : CleanupEnv) (key r : GoStr) (n : Int)
    (hparse : ParsePRKey key = .ok (r, n))
    (hbase : env.cfg.basePathOf r ≠ [])
    (hmissing : env.pathExists
        (pathJoin (env.cfg.basePathOf r) (worktreeNameOf r n)) = false) :
    (CleanupReconcile env key).result = .ok
    ∧ (CleanupReconcile env key).calls = [] := by
  have hrm : removeWorktree env (pathJoin (env.cfg.basePathOf r) r)
      (pathJoin (env.cfg.basePathOf r) (worktreeNameOf r n)) = (none, []) := by
    unfold removeWorktree
    rw [hmissing]
    rfl
  constructor
  · simp [CleanupReconcile, hparse, hbase, hrm]
  · simp [CleanupReconcile, hparse, hbase, hrm]

/-- A concrete environment for the C8 witness: repo "app" configured under
"/tmp/acme", nothing on disk. -/
def cleanupEnvW : CleanupEnv :=
  ⟨⟨[], fun _ => ("/tmp/acme".toList), fun r => r⟩, fun _ => false, true⟩

/-- C8: witness — cleaning up "app:42" with no worktree on disk succeeds
without running any subprocess. -/
theorem c8_cleanup_noop_witness :
    (CleanupReconcile cleanupEnvW (MakePRKey ("app".toList) 42)).result = .ok
    ∧ (CleanupReconcile cleanupEnvW (MakePRKey ("app".toList) 42)).calls = [] :=
  c8_cleanup_noop cleanupEnvW (MakePRKey ("app".toList) 42) ("app".toList) 42
    (ParsePRKey_MakePRKey ("app".toList) 42 (by decide)) (by decide) rfl

/-- A concrete environment for the C1 evaluation: repo "app" configured
under "/tmp/acme" and the worktree path present on disk. -/
def cleanupEnvC1 : CleanupEnv :=
  ⟨⟨[], fun _ => ("/tmp/acme".toList), fun r => r⟩, fun _ => true, true⟩

/-- A concrete setup environment matching `cleanupEnvC1`, with the worktree
absent, for contrasting the mutex discipline of the two reconcilers. -/
def setupEnvC1 : SetupEnv :=
  ⟨⟨[], fun _ => ("/tmp/acme".toList), fun r => r⟩,
   fun _ => some prW, fun _ => false, fun _ => false,
   true, true, true, true, true⟩

/-- C1 (code bug): evaluating the code at the failing input. Reconciling
the cleanup key "app:42" while the worktree path exists invokes the
`git worktree remove --force` subprocess with `worktree.GitMu` NOT held
(`underGitMu = false`): `removeWorktree` in cleanup.go takes no lock. The
setup reconciliation of the same key, by contrast, runs its fetch and
worktree-add subprocesses with the mutex held, as the claim describes. -/
theorem c1_cleanup_without_mutex :
    (CleanupReconcile cleanupEnvC1 (MakePRKey ("app".toList) 42)).calls
      = [⟨.worktreeRemove ("/tmp/acme/app-pr-42".toList), ("/tmp/acme/app".toList), false⟩]
    ∧ (CleanupReconcile cleanupEnvC1 (MakePRKey ("app".toList) 42)).result = .ok
    ∧ (SetupReconcile setupEnvC1 (MakePRKey ("app".toList) 42)).calls
      = [⟨.fetch ("+pull/42/head:pr-42".toList), ("/tmp/acme/app".toList), true⟩,
         ⟨.worktreeAdd ("/tmp/acme/app-pr-42".toList) ("pr-42".toList),
           ("/tmp/acme/app".toList), true⟩] := by
  refine ⟨?_, ?_, ?_⟩
  · decide
  · decide
  · decide

/-! ## The cleanup scanner (`internal/reconciler/cleanup.go`, `ScanMergedPRs`,
and `internal/worktree/age.go`, `AgeDays`) -/

/-- A discovered worktree record (`worktree.Worktree`). -/
structure Worktree where
  path : GoStr
  name : GoStr
  branch : GoStr
  type : WorktreeType
  prNumber : Nat
  repo : GoStr
deriving DecidableEq, Repr

/-- Oracles for one cleanup scan: the remote PR state by full repo name and
number (`none` models a `GetPRState` error) and the worktree age in days
(`none` models an `AgeDays` error; the value `-1` models a worktree whose
last commit cannot be dated, which `AgeDays` returns with a nil error). -/
structure ScanEnv where
  cfg : Config
  prState : GoStr → Nat → Option GoStr
  ageDays : GoStr → Option Int

/-- The per-worktree decision of reconciler.ScanMergedPRs: skip non-PR
worktrees and PR number 0, skip on a state-query error, skip unless the
state is MERGED, skip on an age error or an age below the threshold;
otherwise queue the PR key. -/
def scanDecision (env : ScanEnv) (cleanupAfterDays : Int) (w : Worktree) : Option GoStr :=
  if w.type ≠ .prReview ∨ w.prNumber = 0 then none
  else
    match env.prState (env.cfg.fullNameOf w.repo) w.prNumber with
    | none => none
    | some st =>
      if st ≠ ("MERGED".toList) then none
      else
        match env.ageDays w.path with
        | none => none
        | some age =>
          if age < cleanupAfterDays then none
          else some (MakePRKey w.repo w.prNumber)

/-- reconciler.ScanMergedPRs: the loop over the worktree inventory,
collecting the keys queued for cleanup (queue errors are only logged). -/
def ScanMergedPRs (env : ScanEnv) (cleanupAfterDays : Int) (wts : List Worktree) : List GoStr :=
  wts.filterMap (scanDecision env cleanupAfterDays)

/-- C6 (amended): the scanner queues the key of a worktree exactly when the
worktree is a PR-review one with a nonzero PR number, the remote state
query succeeds with MERGED, and the age query succeeds with a value at
least the threshold (an undatable worktree reports age -1 and is thereby
skipped); nothing else is ever queued for it, and ScanMergedPRs is the
per-worktree decision mapped over the inventory. -/
theorem c6_scan_merged (env : ScanEnv) (days : Int) (w : Worktree) (wts : List Worktree) :
    (scanDecision env days w = some (MakePRKey w.repo w.prNumber) ↔
      (w.type = .prReview ∧ w.prNumber ≠ 0
        ∧ env.prState (env.cfg.fullNameOf w.repo) w.prNumber = some ("MERGED".toList)
        ∧ ∃ age, env.ageDays w.path = some age ∧ days ≤ age))
    ∧ (∀ k, scanDecision env days w = some k → k = MakePRKey w.repo w.prNumber)
    ∧ ScanMergedPRs env days wts = wts.filterMap (scanDecision env days) := by
  refine ⟨?_, ?_, rfl⟩
  · by_cases h1 : w.type ≠ .prReview ∨ w.prNumber = 0
    · rw [scanDecision, if_pos h1]
      refine iff_of_false (by simp) ?_
      rintro ⟨ht, hn, -⟩
      rcases h1 with h1 | h1
      · exact h1 ht
      · exact hn h1
    · rw [scanDecision, if_neg h1]
      push_neg at h1
      split
      next hst =>
        refine iff_of_false (by simp) ?_
        rintro ⟨-, -, hmg, -⟩
        rw [hst] at hmg
        exact absurd hmg (by simp)
      next st hst =>
        by_cases hm : st = ("MERGED".toList)
        · rw [if_neg (not_not_intro hm)]
          split
          next hage =>
            refine iff_of_false (by simp) ?_
            rintro ⟨-, -, -, a, ha, -⟩
            rw [hage] at ha
            exact absurd ha (by simp)
          next age hage =>
            by_cases hlt : age < days
            · rw [if_pos hlt]
              refine iff_of_false (by simp) ?_
              rintro ⟨-, -, -, a, ha, hd⟩
              rw [hage] at ha
              rw [← Option.some.inj ha] at hd
              omega
            · rw [if_neg hlt]
              refine iff_of_true rfl ?_
              exact ⟨h1.1, h1.2, by rw [hst, hm], age, hage, by omega⟩
        · rw [if_pos hm]
          refine iff_of_false (by simp) ?_
          rintro ⟨-, -, hmg, -⟩
          rw [hst] at hmg
          exact hm (Option.some.inj hmg)
  · intro k hk
    rw [scanDecision] at hk
    by_cases h1 : w.type ≠ .prReview ∨ w.prNumber = 0
    · rw [if_pos h1] at hk
      exact absurd hk (by simp)
    · rw [if_neg h1] at hk
      split at hk
      next => exact absurd hk (by simp)
      next st hst =>
        by_cases hm : st = ("MERGED".toList)
        · rw [if_neg (not_not_intro hm)] at hk
          split at hk
          next => exact absurd hk (by simp)
          next age hage =>
            by_cases hlt : age < days
            · rw [if_pos hlt] at hk
              exact absurd hk (by simp)
            · rw [if_neg hlt] at hk
              exact (Option.some.inj hk).symm
        · rw [if_pos hm] at hk
          exact absurd hk (by simp)

/-- The scan environment of the C6 counterexample: every remote state query
answers MERGED, every age query answers 10 days. -/
def scanEnvC6 : ScanEnv :=
  ⟨⟨[], fun _ => ("/tmp/acme".toList), fun r => r⟩,
   fun _ _ => some ("MERGED".toList), fun _ => some 10⟩

/-- The worktree record the inventory derives for directory "app-pr-0"
(the code's Classify yields kind PR-review with number 0 for it). -/
def wC6 : Worktree :=
  ⟨("/tmp/acme/app-pr-0".toList), ("app-pr-0".toList), ("pr-0".toList),
   .prReview, 0, ("app".toList)⟩

/-- C6: counterexample to the claim as stated. A PR-review worktree whose
remote state is MERGED and whose age 10 meets the threshold 5 is
nonetheless not queued: ScanMergedPRs additionally skips PR number 0, a
guard the claim does not mention. -/
theorem c6_counterexample :
    wC6.type = .prReview
    ∧ scanEnvC6.prState (scanEnvC6.cfg.fullNameOf wC6.repo) wC6.prNumber
        = some ("MERGED".toList)
    ∧ scanEnvC6.ageDays wC6.path = some 10
    ∧ ¬((10 : Int) < 5)
    ∧ scanDecision scanEnvC6 5 wC6 = none
    ∧ ScanMergedPRs scanEnvC6 5 [wC6] = [] := by
  refine ⟨rfl, rfl, rfl, by omega, by decide, by decide⟩

/-- The scan environment of the C6 witness: MERGED everywhere, age 6. -/
def scanEnvW : ScanEnv :=
  ⟨⟨[], fun _ => ("/tmp/acme".toList), fun r => r⟩,
   fun _ _ => some ("MERGED".toList), fun _ => some 6⟩

/-- The worktree record of end-to-end scenario 6: PR 19 of repo app. -/
def wW : Worktree :=
  ⟨("/tmp/acme/app-pr-19".toList), ("app-pr-19".toList), ("pr-19".toList),
   .prReview, 19, ("app".toList)⟩

/-- C6: witness — scenario 6 of the specification: a merged PR-review
worktree aged 6 days against a 5-day threshold is queued under its key. -/
theorem c6_scan_merged_witness :
    scanDecision scanEnvW 5 wW = some (MakePRKey ("app".toList) 19)
    ∧ ScanMergedPRs scanEnvW 5 [wW] = [MakePRKey ("app".toList) 19] := by
  have h1 : scanDecision scanEnvW 5 wW = some (MakePRKey ("app".toList) 19) :=
    (c6_scan_merged scanEnvW 5 wW [wW]).1.mpr
      ⟨rfl, by decide, rfl, 6, rfl, by omega⟩
  refine ⟨h1, ?_⟩
  rw [(c6_scan_merged scanEnvW 5 wW [wW]).2.2]
  rw [List.filterMap_cons, h1]
  rfl

/-! ## The display cache (`internal/prcache`) -/

/-- Cached display metadata for one PR (`prcache.PRMeta`). -/
structure PRMeta where
  title : GoStr
  author : GoStr
deriving DecidableEq, Repr

/-- The decoded cache, a Go map embedded as an association list. -/
abbrev PRCacheMap := List (GoStr × PRMeta)

/-- The on-disk state of `pr_cache.json`: `none` models a missing or
unparsable file. -/
abbrev CacheFile := Option PRCacheMap

/-- Association-list lookup (Go map indexing). -/
def mapLookup (m : PRCacheMap) (k : GoStr) : Option PRMeta :=
  match m with
  | [] => none
  | (k2, v) :: rest => if k2 = k then some v else mapLookup rest k

/-- Go map assignment `cache[key] = meta`: replace the binding when the key
is present, add it otherwise. -/
def mapAssign (m : PRCacheMap) (k : GoStr) (v : PRMeta) : PRCacheMap :=
  match m with
  | [] => [(k, v)]
  | (k2, v2) :: rest => if k2 = k then (k, v) :: rest else (k2, v2) :: mapAssign rest k v

/-- prcache.Load: read and decode the cache file; any error yields the
empty map. -/
def prcacheLoad (f : CacheFile) : PRCacheMap :=
  match f with
  | none => []
  | some m => m

/-- prcache.Save: best-effort write of the whole map. -/
def prcacheSave (m : PRCacheMap) : CacheFile := some m

/-- The cache key `fmt.Sprintf("%s/%d", repo, pr)`. -/
def prcacheKey (repo : GoStr) (pr : Nat) : GoStr := repo ++ '/' :: natToChars pr

/-- prcache.Get: load, then look up repo/pr. -/
def prcacheGet (f : CacheFile) (repo : GoStr) (pr : Nat) : Option PRMeta :=
  mapLookup (prcacheLoad f) (prcacheKey repo pr)

/-- prcache.Set: load the cache, merge the new entry, store the result. -/
def prcacheSet (f : CacheFile) (repo : GoStr) (pr : Nat) (title author : GoStr) : CacheFile :=
  prcacheSave (mapAssign (prcacheLoad f) (prcacheKey repo pr) ⟨title, author⟩)

theorem mapLookup_mapAssign (m : PRCacheMap) (k : GoStr) (v : PRMeta) (k2 : GoStr) :
    mapLookup (mapAssign m k v) k2 = if k = k2 then some v else mapLookup m k2 := by
  induction m with
  | nil =>
    by_cases h : k = k2 <;> simp [mapAssign, mapLookup, h]
  | cons e rest ih =>
    obtain ⟨k3, v3⟩ := e
    by_cases h3 : k3 = k
    · subst h3
      by_cases h : k3 = k2 <;> simp [mapAssign, mapLookup, h]
    · by_cases h : k = k2
      · subst h
        simp [mapAssign, mapLookup, h3, ih]
      · by_cases h32 : k3 = k2
        · subst h32
          simp [mapAssign, mapLookup, h3, h]
        · simp [mapAssign, mapLookup, h3, h, h32, ih]

/-- C10: `prcache.Set` is load-merge-store: after `Set repo pr title
author`, the entry under key "repo/pr" is {title, author}, the entry under
every other key is exactly the prior cache's, and a subsequent `Get repo
pr` returns the new entry with ok = true. -/
theorem c10_prcache_set (f : CacheFile) (repo : GoStr) (pr : Nat) (title author : GoStr) :
    prcacheGet (prcacheSet f repo pr title author) repo pr
      = some ⟨title, author⟩
    ∧ (∀ k, k ≠ prcacheKey repo pr →
        mapLookup (prcacheLoad (prcacheSet f repo pr title author)) k
          = mapLookup (prcacheLoad f) k) := by
  have hload : prcacheLoad (prcacheSet f repo pr title author)
      = mapAssign (prcacheLoad f) (prcacheKey repo pr) ⟨title, author⟩ := rfl
  constructor
  · unfold prcacheGet
    rw [hload, mapLookup_mapAssign, if_pos rfl]
  · intro k hk
    rw [hload, mapLookup_mapAssign, if_neg (fun he => hk he.symm)]

/-- C10: witness — starting from a cache holding "app/41", setting
"app"/42 yields the new entry on Get and leaves "app/41" unchanged. -/
theorem c10_prcache_set_witness :
    prcacheGet (prcacheSet (some [(("app/41".toList),
          ⟨("old title".toList), ("bob".toList)⟩)])
        ("app".toList) 42 ("Add pagination".toList) ("alice".toList)) ("app".toList) 42
      = some ⟨("Add pagination".toList), ("alice".toList)⟩
    ∧ mapLookup (prcacheLoad (prcacheSet (some [(("app/41".toList),
          ⟨("old title".toList), ("bob".toList)⟩)])
        ("app".toList) 42 ("Add pagination".toList) ("alice".toList))) ("app/41".toList)
      = mapLookup (prcacheLoad (some [(("app/41".toList),
          ⟨("old title".toList), ("bob".toList)⟩)])) ("app/41".toList) := by
  have h := c10_prcache_set (some [(("app/41".toList),
    ⟨("old title".toList), ("bob".toList)⟩)])
    ("app".toList) 42 ("Add pagination".toList) ("alice".toList)
  exact ⟨h.1, h.2 ("app/41".toList) (by decide)⟩

/-! ## The watch command (`cmd`, pid-file handling) -/

/-- The ASCII whitespace class trimmed by Go `strings.TrimSpace` (the pid
file only ever holds ASCII digits and whitespace). -/
def isSpace (c : Char) : Bool :=
  c.toNat = 32 || (9 ≤ c.toNat && c.toNat ≤ 13)

/-- strings.TrimSpace on ASCII content. -/
def trimSpace (cs : GoStr) : GoStr :=
  ((cs.dropWhile isSpace).reverse.dropWhile isSpace).reverse

/-- The process-level state the watch verbs act on: the pid file content
(`none` when absent or unreadable), the liveness probe (`syscall.Kill(pid,
0)` succeeding), and the oracles for the remaining start steps
(`config.EnsureDirs`, `os.Executable`, `os.OpenFile` on the log,
`os.StartProcess`), plus the pid the spawn would produce. -/
structure ProcSys where
  pidFileContent : Option GoStr
  alive : Int → Bool
  ensureDirsOk : Bool
  execPathOk : Bool
  openLogOk : Bool
  startProcessOk : Bool
  childPid : Nat

/-- cmd.watchIsRunning: read the pid file, parse the trimmed content with
`strconv.Atoi`, probe the process with signal 0; a pid file naming a dead
process is removed and reported as not running. -/
def watchIsRunning (s : ProcSys) : (Bool × Int) × ProcSys :=
  match s.pidFileContent with
  | none => ((false, 0), s)
  | some data =>
    match goAtoi (trimSpace data) with
    | none => ((false, 0), s)
    | some pid =>
      if s.alive pid then ((true, pid), s)
      else ((false, 0), { s with pidFileContent := none })

/-- What one invocation of cmd.watchStart does: the `RunE` result (the CLI
exits non-zero exactly when this is an error), whether a daemon process was
spawned, and the process state afterwards. -/
structure StartOutcome where
  result : Except GoStr Unit
  spawned : Bool
  sys : ProcSys

/-- cmd.watchStart: ensure the state directories; when a live daemon is
already running, log a warning and return nil — exit code 0 — without
spawning; otherwise resolve the executable, open the log file, spawn
`watch daemon`, and write the child pid to the pid file. (The model omits
the pid-file write-error path, which no claim touches.) -/
def watchStart (s : ProcSys) : StartOutcome :=
  if !s.ensureDirsOk then ⟨.error (("ensure dirs").toList), false, s⟩
  else
    let run := watchIsRunning s
    if run.1.1 then ⟨.ok (), false, run.2⟩
    else if !s.execPathOk then ⟨.error (("executable").toList), false, run.2⟩
    else if !s.openLogOk then ⟨.error (("open log").toList), false, run.2⟩
    else if !s.startProcessOk then ⟨.error (("starting daemon").toList), false, run.2⟩
    else ⟨.ok (), true, { run.2 with pidFileContent := some (natToChars s.childPid) }⟩

/-- The first action of cmd.watchDaemon (line `os.WriteFile(pidFile(),
strconv.Itoa(os.Getpid()), 0644)`): the daemon overwrites the pid file with
its own pid. -/
def watchDaemonWritePid (s : ProcSys) (selfPid : Nat) : ProcSys :=
  { s with pidFileContent := some (natToChars selfPid) }

theorem watchIsRunning_true_state (s : ProcSys) (h : (watchIsRunning s).1.1 = true) :
    (watchIsRunning s).2 = s := by
  rcases hpc : s.pidFileContent with _ | data
  · simp only [watchIsRunning, hpc]
  · rcases hat : goAtoi (trimSpace data) with _ | pid
    · simp only [watchIsRunning, hpc, hat]
    · by_cases ha : s.alive pid = true
      · simp only [watchIsRunning, hpc, hat, ha, if_true]
      · rw [Bool.not_eq_true] at ha
        simp only [watchIsRunning, hpc, hat, ha, Bool.false_eq_true, if_false] at h

/-- A process state with a pid file naming a live process 123. -/
def procSysC9 : ProcSys :=
  ⟨some ("123".toList), fun p => p == 123, true, true, true, true, 999⟩

/-- C9: counterexample to the claim as stated. With a pid file referencing
the live process 123, `watchStart` does refuse to spawn, but it returns nil
— the start command exits 0 after logging a warning — not a non-zero
code. -/
theorem c9_counterexample :
    (watchIsRunning procSysC9).1.1 = true
    ∧ (watchStart procSysC9).result = .ok ()
    ∧ (watchStart procSysC9).spawned = false := by
  refine ⟨rfl, rfl, rfl⟩

/-- C9 (amended): when an existing pid file references a live process,
starting is refused — nothing is spawned and the state is untouched — but
the command returns success (exit code 0) after a warning; otherwise, when
the start steps succeed, a daemon is spawned and `watchStart` records the
child pid in the pid file, which the spawned daemon then overwrites with
its own (current) pid. -/
theorem c9_pid_file (s : ProcSys) (selfPid : Nat) :
    (s.ensureDirsOk = true → (watchIsRunning s).1.1 = true →
      (watchStart s).result = .ok () ∧ (watchStart s).spawned = false
        ∧ (watchStart s).sys = s)
    ∧ (s.ensureDirsOk = true → (watchIsRunning s).1.1 = false →
        s.execPathOk = true → s.openLogOk = true → s.startProcessOk = true →
        (watchStart s).spawned = true
          ∧ (watchStart s).sys.pidFileContent = some (natToChars s.childPid))
    ∧ (watchDaemonWritePid s selfPid).pidFileContent = some (natToChars selfPid) := by
  refine ⟨?_, ?_, rfl⟩
  · intro hdirs hrun
    have hstate := watchIsRunning_true_state s hrun
    simp [watchStart, hdirs, hrun, hstate]
  · intro hdirs hrun hexec hlog hstart
    simp [watchStart, hdirs, hrun, hexec, hlog, hstart]

/-- A process state with no pid file, where a spawn will produce pid 77. -/
def procSysW2 : ProcSys :=
  ⟨none, fun _ => false, true, true, true, true, 77⟩

/-- C9: witness instantiating the amended claim on both sides — the
running state `procSysC9` (refused, success, untouched) and the idle state
`procSysW2` (spawned, child pid 77 recorded, daemon rewrite with 88). -/
theorem c9_pid_file_witness :
    ((watchStart procSysC9).result = .ok () ∧ (watchStart procSysC9).spawned = false
      ∧ (watchStart procSysC9).sys = procSysC9)
    ∧ ((watchStart procSysW2).spawned = true
      ∧ (watchStart procSysW2).sys.pidFileContent = some (natToChars 77))
    ∧ (watchDaemonWritePid procSysW2 88).pidFileContent = some (natToChars 88) :=
  ⟨(c9_pid_file procSysC9 0).1 rfl rfl,
   (c9_pid_file procSysW2 0).2.1 rfl rfl rfl rfl rfl,
   (c9_pid_file procSysW2 88).2.2⟩

end Zen
